import Mathlib

/- Verification development for the function-category dispatch and domain/range
   resolution engine of `t.py`.

   The source wraps an external algebra engine (sympy): parsing, simplification,
   differentiation, integration, polynomial conversion and continuous-domain /
   function-range solving are engine capabilities consumed through a narrow
   surface.  The embedding below models the engine's expression trees by a
   concrete inductive `Expr`, models text as a lexed token stream `Txt` (the
   engine's lexer is out of scope; `^`-to-`**` normalisation is a token map),
   and implements concrete models of the engine capabilities the source calls
   (`diffE`, `integE`, `substE`, `evalClosed`, `asPoly`, `asNumerDenom`).  The
   two open-ended solvers (`continuous_domain`, `function_range`) cannot be
   implemented concretely, so the core is parameterised over a `RangeSolver`;
   theorems quantify over the solver and witnesses use a concrete stand-in.

   Each class of `t.py` becomes a `Category` tag carried by a `Fn` value, and
   each method becomes a function on `Fn` translated line by line from the
   source (python `ValueError` on a missing variable is `Err.ambiguousVariable`,
   the spec's `AmbiguousVariable`; a failed construction is `Err.parseError`;
   the `TypeError` python raises when a binary operator falls through is
   `Err.typeError`). -/

/-- The seven function categories of `t.py`: the base class `Function`
(generic) and the six subclasses. -/
inductive Category where
  | generic
  | polynomial
  | trig
  | rational
  | exponential
  | logarithmic
  | absolute
deriving DecidableEq

/-- Errors surfaced by the core: `ParseError` at construction,
`ValueError`/`AmbiguousVariable` when an implicit variable cannot be resolved,
and the `TypeError` python raises when an operand is rejected. -/
inductive Err where
  | parseError
  | ambiguousVariable
  | typeError
deriving DecidableEq

deriving instance DecidableEq for Except

/-- Model of the algebra engine's expression trees (sympy `Expr`), restricted
to the node kinds the source exercises: rational numerals, symbols, the five
arithmetic operators, the trigonometric functions, `exp`, `log` and `Abs`. -/
inductive Expr where
  | num (q : ℚ)
  | sym (s : String)
  | add (a b : Expr)
  | sub (a b : Expr)
  | mul (a b : Expr)
  | div (a b : Expr)
  | pow (a b : Expr)
  | sin (a : Expr)
  | cos (a : Expr)
  | tan (a : Expr)
  | exp (a : Expr)
  | log (a : Expr)
  | abs (a : Expr)
deriving DecidableEq

/-- The function names recognised by the model parser. -/
def funNames : List String := ["sin", "cos", "tan", "exp", "log", "Abs"]

/-- An expression is well formed when no variable name collides with a
function name, so its rendering reparses unambiguously. -/
def goodE : Expr → Bool
  | .num _ => true
  | .sym s => !funNames.contains s
  | .add a b | .sub a b | .mul a b | .div a b | .pow a b => goodE a && goodE b
  | .sin a | .cos a | .tan a | .exp a | .log a | .abs a => goodE a

/-- All symbol occurrences of an expression, with duplicates. -/
def symsList : Expr → List String
  | .num _ => []
  | .sym s => [s]
  | .add a b | .sub a b | .mul a b | .div a b | .pow a b => symsList a ++ symsList b
  | .sin a | .cos a | .tan a | .exp a | .log a | .abs a => symsList a

/-- Insert a name into a sorted duplicate-free list, keeping it sorted and
duplicate free. -/
def insertS (x : String) : List String → List String
  | [] => [x]
  | y :: ys => if x = y then y :: ys else if x.data < y.data then x :: y :: ys else y :: insertS x ys

/-- Model of `sorted(expr.free_symbols, key=lambda s: s.name)`: the distinct
free variable names, sorted lexicographically. -/
def freeVars (e : Expr) : List String := (symsList e).foldr insertS []

/-- Model of `expr.subs(values)` with a mapping from names to numbers: every
occurrence of a bound symbol is replaced by its numeral; names that do not
occur in the expression simply never match. -/
def substE (vals : List (String × ℚ)) : Expr → Expr
  | .num q => .num q
  | .sym s =>
      match vals.lookup s with
      | some q => .num q
      | none => .sym s
  | .add a b => .add (substE vals a) (substE vals b)
  | .sub a b => .sub (substE vals a) (substE vals b)
  | .mul a b => .mul (substE vals a) (substE vals b)
  | .div a b => .div (substE vals a) (substE vals b)
  | .pow a b => .pow (substE vals a) (substE vals b)
  | .sin a => .sin (substE vals a)
  | .cos a => .cos (substE vals a)
  | .tan a => .tan (substE vals a)
  | .exp a => .exp (substE vals a)
  | .log a => .log (substE vals a)
  | .abs a => .abs (substE vals a)

/-- Apply a total binary operation under two optional values. -/
def liftO (f : ℚ → ℚ → ℚ) : Option ℚ → Option ℚ → Option ℚ
  | some x, some y => some (f x y)
  | _, _ => none

/-- Division under optional values; division by zero fails. -/
def divO : Option ℚ → Option ℚ → Option ℚ
  | some x, some y => if y = 0 then none else some (x / y)
  | _, _ => none

/-- Power under optional values: defined for integer exponents, with a zero
base rejected for negative exponents; anything else is not a value the
rational model represents. -/
def powO : Option ℚ → Option ℚ → Option ℚ
  | some x, some y =>
      if y.den = 1 then
        if x = 0 ∧ y.num < 0 then none else some (x ^ y.num)
      else none
  | _, _ => none

/-- Model of `float(expr.evalf())` on a fully substituted tree: the exact
rational value when the tree denotes one, `none` when the coercion fails
(division by zero, a symbol still present, or a value the rational model
cannot represent exactly, e.g. a transcendental application). -/
def evalClosed : Expr → Option ℚ
  | .num q => some q
  | .sym _ => none
  | .add a b => liftO (fun x y => x + y) (evalClosed a) (evalClosed b)
  | .sub a b => liftO (fun x y => x - y) (evalClosed a) (evalClosed b)
  | .mul a b => liftO (fun x y => x * y) (evalClosed a) (evalClosed b)
  | .div a b => divO (evalClosed a) (evalClosed b)
  | .pow a b => powO (evalClosed a) (evalClosed b)
  | .sin _ => none
  | .cos _ => none
  | .tan _ => none
  | .exp _ => none
  | .log _ => none
  | .abs a => (evalClosed a).map (fun x => |x|)

/-- Concrete model of the engine's `diff(expr, var)`: standard symbolic
differentiation rules. -/
def diffE (v : String) : Expr → Expr
  | .num _ => .num 0
  | .sym s => if s = v then .num 1 else .num 0
  | .add a b => .add (diffE v a) (diffE v b)
  | .sub a b => .sub (diffE v a) (diffE v b)
  | .mul a b => .add (.mul (diffE v a) b) (.mul a (diffE v b))
  | .div a b => .div (.sub (.mul (diffE v a) b) (.mul a (diffE v b))) (.mul b b)
  | .pow a b => .mul (.pow a b) (.add (.mul (diffE v b) (.log a)) (.div (.mul b (diffE v a)) a))
  | .sin a => .mul (.cos a) (diffE v a)
  | .cos a => .sub (.num 0) (.mul (.sin a) (diffE v a))
  | .tan a => .div (diffE v a) (.mul (.cos a) (.cos a))
  | .exp a => .mul (.exp a) (diffE v a)
  | .log a => .div (diffE v a) a
  | .abs a => .div (.mul a (diffE v a)) (.abs a)

/-- Concrete model of the engine's `integrate(expr, var)` (indefinite): exact
on numerals, symbols and sums; on other shapes it returns a definite
placeholder expression, standing in for the opaque engine result (the core
under verification only ever rewraps the returned tree, it never inspects
it). -/
def integE (v : String) : Expr → Expr
  | .num q => .mul (.num q) (.sym v)
  | .sym s => if s = v then .div (.pow (.sym v) (.num 2)) (.num 2) else .mul (.sym s) (.sym v)
  | .add a b => .add (integE v a) (integE v b)
  | .sub a b => .sub (integE v a) (integE v b)
  | e => .mul e (.sym v)

/-- Model of the engine's `expr.as_numer_denom()`: a quotient-shaped tree
splits into its two sides, anything else has denominator one.  This matches
the shapes the source's rational paths exercise, where the wrapped expression
is a literal quotient produced by the parser. -/
def asNumerDenom : Expr → Expr × Expr
  | .div a b => (a, b)
  | e => (e, .num 1)

/-- Drop trailing zero coefficients. -/
def trimP (p : List ℚ) : List ℚ := (p.reverse.dropWhile (fun c => decide (c = 0))).reverse

/-- Coefficient-wise sum of two polynomials (coefficient lists, ascending). -/
def polyAdd : List ℚ → List ℚ → List ℚ
  | [], q => q
  | p, [] => p
  | a :: p, b :: q => (a + b) :: polyAdd p q

/-- Scale every coefficient. -/
def polyScale (c : ℚ) (p : List ℚ) : List ℚ := p.map (fun a => c * a)

/-- Polynomial product (convolution of coefficient lists). -/
def polyMul : List ℚ → List ℚ → List ℚ
  | [], _ => []
  | a :: p, q => polyAdd (polyScale a q) ((0 : ℚ) :: polyMul p q)

/-- Polynomial power. -/
def polyPow (p : List ℚ) : Nat → List ℚ
  | 0 => [1]
  | n + 1 => polyMul p (polyPow p n)

/-- Apply a total binary polynomial operation under two optional values. -/
def liftP (f : List ℚ → List ℚ → List ℚ) : Option (List ℚ) → Option (List ℚ) → Option (List ℚ)
  | some p, some q => some (f p q)
  | _, _ => none

/-- Polynomial division: defined only when the divisor is a nonzero
constant. -/
def divPoly : Option (List ℚ) → Option (List ℚ) → Option (List ℚ)
  | some p, some q =>
      (match trimP q with
       | [c] => if c = 0 then none else some (polyScale c⁻¹ p)
       | _ => none)
  | _, _ => none

/-- Polynomial power: defined only for a literal natural exponent. -/
def powPoly (p? : Option (List ℚ)) (b : Expr) : Option (List ℚ) :=
  match p?, b with
  | some p, .num n => if n.den = 1 ∧ 0 ≤ n.num then some (polyPow p n.num.toNat) else none
  | _, _ => none

/-- Model of the engine's `expr.as_poly()` for expressions in at most one
variable: the ascending coefficient list when the expression is a genuine
polynomial (division only by nonzero constants, natural exponents), `none`
otherwise. -/
def asPoly : Expr → Option (List ℚ)
  | .num q => some [q]
  | .sym _ => some [0, 1]
  | .add a b => liftP polyAdd (asPoly a) (asPoly b)
  | .sub a b => liftP (fun p q => polyAdd p (polyScale (-1) q)) (asPoly a) (asPoly b)
  | .mul a b => liftP polyMul (asPoly a) (asPoly b)
  | .div a b => divPoly (asPoly a) (asPoly b)
  | .pow a b => powPoly (asPoly a) b
  | _ => none

/-- Degree of a coefficient list (`-1` stands for the zero polynomial's
minus-infinity degree, which no claim exercises). -/
def pdeg (p : List ℚ) : ℤ := ((trimP p).length : ℤ) - 1

/-- Leading coefficient of a coefficient list. -/
def pLC (p : List ℚ) : ℚ := ((trimP p).getLast?).getD 0

/-- Rendering of a rational number as the engine prints it inside the
asymptote report. -/
def ratStr (q : ℚ) : String :=
  if q.den = 1 then toString q.num else toString q.num ++ "/" ++ toString q.den

/-- Model of the opaque interval sets the engine's domain/range solvers
return (`S.Reals`, `[a, +oo)`, `(a, +oo)`, and other opaque handles). -/
inductive RSet where
  | reals
  | Ici (a : ℚ)
  | Ioi (a : ℚ)
  | other (k : Nat)
deriving DecidableEq

/-- The two engine capabilities the core cannot model concretely: continuous
domain and function range solving over the reals.  The core is parameterised
over them; theorems quantify over the solver. -/
structure RangeSolver where
  continuousDomain : Expr → String → RSet
  functionRange : Expr → String → RSet → RSet

/-- A concrete stand-in solver for witnesses: every continuous domain is the
reals, the range of an absolute-value application is `[0, +oo)`, anything
else gets an opaque handle. -/
def refSolver : RangeSolver where
  continuousDomain := fun _ _ => .reals
  functionRange := fun e _ _ =>
    match e with
    | .abs _ => .Ici 0
    | _ => .other 1

/-- A solver whose range answers are a fixed opaque handle, used to separate
what the core computes itself from what it takes from the engine. -/
def junkSolver : RangeSolver where
  continuousDomain := fun _ _ => .reals
  functionRange := fun _ _ _ => .other 0

/-- Tokens of the model's text representation (the engine's lexer is out of
scope, so text is modelled as a lexed stream). -/
inductive Tok where
  | lpar
  | rpar
  | plus
  | minus
  | star
  | slash
  | dstar
  | caret
  | numT (q : ℚ)
  | nameT (s : String)
deriving DecidableEq

/-- Text, as a token stream. -/
abbrev Txt := List Tok

/-- Model of `expr.replace("^", "**")` in `Function.__init__`. -/
def normTok : Tok → Tok
  | .caret => .dstar
  | t => t

/-- Caret normalisation over a whole text. -/
def caretNorm (t : Txt) : Txt := t.map normTok

/-- Build a unary application from a recognised function name. -/
def mkUnary (s : String) (a : Expr) : Expr :=
  if s = "sin" then .sin a
  else if s = "cos" then .cos a
  else if s = "tan" then .tan a
  else if s = "exp" then .exp a
  else if s = "log" then .log a
  else .abs a

/-- The binary operator denoted by a token, if any. -/
def binOfTok : Tok → Option (Expr → Expr → Expr)
  | .plus => some .add
  | .minus => some .sub
  | .star => some .mul
  | .slash => some .div
  | .dstar => some .pow
  | _ => none

/-- Canonical rendering of an expression as text (model of the engine's
`str(expr)`): fully parenthesised, so reparsing is unambiguous. -/
def toTokens : Expr → List Tok
  | .num q => [.numT q]
  | .sym s => [.nameT s]
  | .add a b => .lpar :: (toTokens a ++ .plus :: (toTokens b ++ [.rpar]))
  | .sub a b => .lpar :: (toTokens a ++ .minus :: (toTokens b ++ [.rpar]))
  | .mul a b => .lpar :: (toTokens a ++ .star :: (toTokens b ++ [.rpar]))
  | .div a b => .lpar :: (toTokens a ++ .slash :: (toTokens b ++ [.rpar]))
  | .pow a b => .lpar :: (toTokens a ++ .dstar :: (toTokens b ++ [.rpar]))
  | .sin a => .nameT "sin" :: .lpar :: (toTokens a ++ [.rpar])
  | .cos a => .nameT "cos" :: .lpar :: (toTokens a ++ [.rpar])
  | .tan a => .nameT "tan" :: .lpar :: (toTokens a ++ [.rpar])
  | .exp a => .nameT "exp" :: .lpar :: (toTokens a ++ [.rpar])
  | .log a => .nameT "log" :: .lpar :: (toTokens a ++ [.rpar])
  | .abs a => .nameT "Abs" :: .lpar :: (toTokens a ++ [.rpar])

/-- Recursion depth needed to parse an expression's rendering. -/
def esize : Expr → Nat
  | .num _ => 1
  | .sym _ => 1
  | .add a b | .sub a b | .mul a b | .div a b | .pow a b => max (esize a) (esize b) + 1
  | .sin a | .cos a | .tan a | .exp a | .log a | .abs a => esize a + 1

/-- Model of the engine's parser (`parse_expr`) on the fully parenthesised
grammar, with explicit recursion fuel; returns the parsed expression and the
unconsumed remainder. -/
def parseToks : Nat → List Tok → Option (Expr × List Tok)
  | 0, _ => none
  | _ + 1, [] => none
  | _ + 1, .numT q :: ts => some (.num q, ts)
  | fuel + 1, .nameT s :: ts =>
      if funNames.contains s then
        match ts with
        | .lpar :: ts1 =>
            match parseToks fuel ts1 with
            | some (a, .rpar :: ts2) => some (mkUnary s a, ts2)
            | _ => none
        | _ => none
      else
        some (.sym s, ts)
  | fuel + 1, .lpar :: ts =>
      match parseToks fuel ts with
      | some (a, t :: ts2) =>
          match binOfTok t with
          | some bop =>
              match parseToks fuel ts2 with
              | some (b, .rpar :: ts3) => some (bop a b, ts3)
              | _ => none
          | none => none
      | _ => none
  | _ + 1, _ :: _ => none

/-- Parse a complete text. -/
def parseTxt (t : Txt) : Option Expr :=
  match parseToks (t.length + 1) t with
  | some (e, []) => some e
  | _ => none

/-- A Function value of `t.py`: its concrete class, as a category tag, and
the wrapped engine expression.  (`self.vars` is a pure function of the
expression, recomputed by `Fn.vars` below; `self.expr_str` is the
caret-normalised construction text and carries no behaviour the claims
touch.) -/
structure Fn where
  cat : Category
  expr : Expr
deriving DecidableEq

/-- Model of `Function.__init__`: caret-normalise, parse (raising
`ParseError` on failure), and wrap with the chosen category tag.
Construction performs no category-membership validation. -/
def mkFn (c : Category) (t : Txt) : Except Err Fn :=
  match parseTxt (caretNorm t) with
  | some e => .ok ⟨c, e⟩
  | none => .error .parseError

/-- Model of the `self.__class__(str(expr))` pattern: construct a Function of
category `c` from the rendered text of `e`, through the ordinary
construction path. -/
def reconstruct (c : Category) (e : Expr) : Except Err Fn := mkFn c (toTokens e)

/-- The detected variables (`self.vars`). -/
def Fn.vars (f : Fn) : List String := freeVars f.expr

/-- Result of `Function.evaluater`: a float, or a still-symbolic sympy
object. -/
inductive EvalResult where
  | number (q : ℚ)
  | residual (e : Expr)
deriving DecidableEq

/-- Model of `Function.evaluater(**values)`: substitute, return the residual
expression if free symbols remain, otherwise try the float coercion and fall
back to the (fully substituted) symbolic value when it fails. -/
def Fn.evaluater (f : Fn) (vals : List (String × ℚ)) : EvalResult :=
  let evaluated := substE vals f.expr
  if freeVars evaluated = [] then
    match evalClosed evaluated with
    | some q => .number q
    | none => .residual evaluated
  else
    .residual evaluated

/-- Model of `Function.derivative`: resolve the variable (default only when
exactly one free variable exists), differentiate via the engine, and rebuild
an instance of the receiver's own class from the result's rendered text. -/
def Fn.derivative (f : Fn) (var : Option String) : Except Err Fn :=
  match var with
  | none =>
      match Fn.vars f with
      | [v] => reconstruct f.cat (diffE v f.expr)
      | _ => .error .ambiguousVariable
  | some v => reconstruct f.cat (diffE v f.expr)

/-- Model of `Function.integral`, same shape as `derivative`. -/
def Fn.integral (f : Fn) (var : Option String) : Except Err Fn :=
  match var with
  | none =>
      match Fn.vars f with
      | [v] => reconstruct f.cat (integE v f.expr)
      | _ => .error .ambiguousVariable
  | some v => reconstruct f.cat (integE v f.expr)

/-- Model of the base `Function.domain`: resolve the variable, then ask the
engine for the continuous domain over the reals. -/
def genericDomain (S : RangeSolver) (f : Fn) (var : Option String) : Except Err RSet :=
  match var with
  | none =>
      match Fn.vars f with
      | [v] => .ok (S.continuousDomain f.expr v)
      | _ => .error .ambiguousVariable
  | some v => .ok (S.continuousDomain f.expr v)

/-- Model of `PolynomialFunction.domain`: check the single-variable rule only
when no variable is given, then return the reals unconditionally, never
examining the wrapped expression. -/
def polyDomain (f : Fn) (var : Option String) : Except Err RSet :=
  match var with
  | none =>
      match Fn.vars f with
      | [_] => .ok .reals
      | _ => .error .ambiguousVariable
  | some _ => .ok .reals

/-- Virtual dispatch for `domain`: `PolynomialFunction` overrides it; the
other five subclasses delegate to the base implementation via `super`. -/
def Fn.domain (S : RangeSolver) (f : Fn) (var : Option String) : Except Err RSet :=
  match f.cat with
  | .polynomial => polyDomain f var
  | _ => genericDomain S f var

/-- Model of invoking `self.domain` with an already-resolved engine Symbol as
its argument, as `Function.range` does in its domain-defaulting branch
(`domain = self.domain(var)` after `var` has become a Symbol).  The
`PolynomialFunction` override returns the reals without touching the
argument; every other category reaches the base implementation, whose
`var = symbols(var)` iterates over its non-string argument — a Symbol is not
iterable — and raises `TypeError` before any engine call. -/
def Fn.domainOnSymbol (f : Fn) (_v : String) : Except Err RSet :=
  match f.cat with
  | .polynomial => .ok .reals
  | _ => .error .typeError

/-- Model of the base `Function.range`: resolve the variable (an explicit
string is resolved with `symbols`, which succeeds on strings); with an
explicit domain ask the engine's range solver; with no explicit domain the
source calls `self.domain(var)` with the already-resolved Symbol, a call
that raises `TypeError` for every non-polynomial receiver (see
`Fn.domainOnSymbol`), so the defaulting branch never reaches the range
solver there. -/
def genericRange (S : RangeSolver) (f : Fn) (var : Option String) (dom : Option RSet) :
    Except Err RSet :=
  match (match var with
         | none =>
             match Fn.vars f with
             | [v] => some v
             | _ => none
         | some v => some v) with
  | none => .error .ambiguousVariable
  | some v =>
      match dom with
      | some d => .ok (S.functionRange f.expr v d)
      | none =>
          match Fn.domainOnSymbol f v with
          | .ok d => .ok (S.functionRange f.expr v d)
          | .error e => .error e

/-- Model of `PolynomialFunction.range`: the domain defaults to the reals
(even when a variable is passed), then the engine's range solver is used. -/
def polyRange (S : RangeSolver) (f : Fn) (var : Option String) (dom : Option RSet) :
    Except Err RSet :=
  match (match var with
         | none =>
             match Fn.vars f with
             | [v] => some v
             | _ => none
         | some v => some v) with
  | none => .error .ambiguousVariable
  | some v => .ok (S.functionRange f.expr v (dom.getD .reals))

/-- Virtual dispatch for `range`: `PolynomialFunction` overrides it; every
other subclass — `AbsoluteFunction` included — delegates to the base
implementation via `super`. -/
def Fn.range (S : RangeSolver) (f : Fn) (var : Option String) (dom : Option RSet) :
    Except Err RSet :=
  match f.cat with
  | .polynomial => polyRange S f var dom
  | _ => genericRange S f var dom

/-- Model of `Function.__add__`: combine the two wrapped expressions and
rebuild an instance of the receiver's class from the rendered text. -/
def Fn.addFn (f other : Fn) : Except Err Fn := reconstruct f.cat (.add f.expr other.expr)

/-- Model of `Function.__sub__`. -/
def Fn.subFn (f other : Fn) : Except Err Fn := reconstruct f.cat (.sub f.expr other.expr)

/-- Model of `Function.__mul__`. -/
def Fn.mulFn (f other : Fn) : Except Err Fn := reconstruct f.cat (.mul f.expr other.expr)

/-- Model of `Function.__truediv__`. -/
def Fn.divFn (f other : Fn) : Except Err Fn := reconstruct f.cat (.div f.expr other.expr)

/-- The python value handed to `__pow__` as its `power` parameter: a plain
number, or another Function object. -/
inductive PyOperand where
  | pyNum (q : ℚ)
  | pyFn (g : Fn)
deriving DecidableEq

/-- Model of the engine's strict operand conversion (`sympify(power,
strict=True)`, applied by sympy's binary-operator wrappers): numbers convert
to numerals; a Function object has no registered converter and no `_sympy_`
hook, so conversion fails.  When it fails the sympy operator returns
`NotImplemented` and, since `Function` defines no `__rpow__`, python raises
`TypeError`. -/
def sympifyStrict : PyOperand → Option Expr
  | .pyNum q => some (.num q)
  | .pyFn _ => none

/-- Model of `Function.__pow__`: unlike the other four operators it does not
take `other.expr`; it applies the engine's power to the raw `power` operand,
so the operand must be engine-convertible. -/
def Fn.powFn (f : Fn) (power : PyOperand) : Except Err Fn :=
  match sympifyStrict power with
  | some e => reconstruct f.cat (.pow f.expr e)
  | none => .error .typeError

/-- A python runtime value as returned by the Rational accessors: either a
Function instance or a bare engine expression. -/
inductive PyObject where
  | fnObj (g : Fn)
  | exprObj (e : Expr)
deriving DecidableEq

/-- Whether a python value is a Function instance. -/
def isFnObj : PyObject → Bool
  | .fnObj _ => true
  | .exprObj _ => false

/-- Model of `RationalFunction.numerator`: `self.expr.as_numer_denom()[0]`,
returned as is. -/
def Fn.numerator (f : Fn) : PyObject := .exprObj (asNumerDenom f.expr).1

/-- Model of `RationalFunction.denominator`: `self.expr.as_numer_denom()[1]`,
returned as is. -/
def Fn.denominator (f : Fn) : PyObject := .exprObj (asNumerDenom f.expr).2

/-- Model of `RationalFunction.horizontal_asymptote`: split into numerator
and denominator, convert each to polynomial form (a failed conversion —
exception or `None` — yields the not-rational report), then classify by
degree comparison. -/
def Fn.horizontalAsymptote (f : Fn) : String :=
  match asPoly (asNumerDenom f.expr).1, asPoly (asNumerDenom f.expr).2 with
  | some pn, some pd =>
      if pdeg pn < pdeg pd then "y = 0"
      else if pdeg pn = pdeg pd then "y = " ++ ratStr (pLC pn) ++ "/" ++ ratStr (pLC pd)
      else "No horizontal asymptote (slant or higher)."
  | _, _ => "Not a rational polynomial function."

/-- Modelled from the spec: the evenly spaced sample abscissas over a closed
interval (`sample` has no implementation in `src/t.py`; only §4.6 of the spec
describes it). -/
def sampleXs (low high : ℚ) (n : Nat) : List ℚ :=
  (List.range n).map (fun i : Nat => low + (high - low) * (i : ℚ) / ((n - 1 : Nat) : ℚ))

/-- Modelled from the spec: evaluate an expression at one sample point by
substituting the value and coercing; `none` is the undefined-sample
sentinel. -/
def evalAt (e : Expr) (v : String) (x : ℚ) : Option ℚ :=
  evalClosed (substE [(v, x)] e)

/-- Modelled from the spec: `sample()` (§4.6) is absent from `src/t.py`.
Resolve the variable by the single-variable rule (else `AmbiguousVariable`),
take `n` evenly spaced points over the interval, and record each point's
value, with per-point evaluation failure suppressed to the undefined
sentinel rather than raised.  The category default interval (±2π for
trigonometric) is not representable over ℚ, so the model takes the interval
explicitly; the claims quantify over intervals. -/
def Fn.sample (f : Fn) (var : Option String) (low high : ℚ) (n : Nat) :
    Except Err (List (ℚ × Option ℚ)) :=
  match (match var with
         | none =>
             match Fn.vars f with
             | [v] => some v
             | _ => none
         | some v => some v) with
  | none => .error .ambiguousVariable
  | some v => .ok ((sampleXs low high n).map (fun x => (x, evalAt f.expr v x)))

/-- Whether a construction-like result is a success. -/
def exOk : Except Err Fn → Bool
  | .ok _ => true
  | .error _ => false

/-- Whether a domain/range result is a success. -/
def rngOk : Except Err RSet → Bool
  | .ok _ => true
  | .error _ => false

/-- Whether an evaluation result is a number. -/
def isNumber : EvalResult → Bool
  | .number _ => true
  | .residual _ => false

/-- `AbsoluteFunction("Abs(x - 1)")`. -/
def absEx : Fn := ⟨.absolute, .abs (.sub (.sym "x") (.num 1))⟩

/-- `PolynomialFunction("x^2")`. -/
def polyX2 : Fn := ⟨.polynomial, .pow (.sym "x") (.num 2)⟩

/-- `RationalFunction("1/x")`. -/
def ratInvX : Fn := ⟨.rational, .div (.num 1) (.sym "x")⟩

/-- `Function("x - 2w + 3z")`, a three-variable function. -/
def genY : Fn := ⟨.generic, .add (.sub (.sym "x") (.mul (.num 2) (.sym "w"))) (.mul (.num 3) (.sym "z"))⟩

/-- `Function("x^2 + 1")`, a one-variable function. -/
def fX2p1 : Fn := ⟨.generic, .add (.pow (.sym "x") (.num 2)) (.num 1)⟩

/-- `TrigFunction("sin(x)")`. -/
def trigEx : Fn := ⟨.trig, .sin (.sym "x")⟩

/-- `RationalFunction("(2x+1)/(x+3)")`. -/
def ratEq : Fn := ⟨.rational, .div (.add (.mul (.num 2) (.sym "x")) (.num 1)) (.add (.sym "x") (.num 3))⟩

/-- `RationalFunction("(x^2+1)/(x-2)")`. -/
def ratHi : Fn := ⟨.rational, .div (.add (.pow (.sym "x") (.num 2)) (.num 1)) (.sub (.sym "x") (.num 2))⟩

/-- `RationalFunction("(x+1)/(x^2+1)")`. -/
def ratLo : Fn := ⟨.rational, .div (.add (.sym "x") (.num 1)) (.add (.pow (.sym "x") (.num 2)) (.num 1))⟩

/-- The text `1/x`, as tokens. -/
def oneOverXTxt : Txt := [.lpar, .numT 1, .slash, .nameT "x", .rpar]

/- Helper lemmas -/

theorem caretNorm_toTokens (e : Expr) : caretNorm (toTokens e) = toTokens e := by
  induction e <;>
    simp_all [toTokens, caretNorm, normTok, List.map_append, List.map_cons]

theorem esize_le_len (e : Expr) : esize e ≤ (toTokens e).length := by
  induction e <;>
    simp_all [toTokens, esize, List.length_append, List.length_cons] <;> omega

theorem parseToks_toTokens (e : Expr) (hg : goodE e = true) :
    ∀ fuel rest, esize e ≤ fuel → parseToks fuel (toTokens e ++ rest) = some (e, rest) := by
  induction e with
  | num q =>
      intro fuel rest hf
      match fuel, hf with
      | fuel + 1, _ => simp [toTokens, parseToks]
  | sym s =>
      intro fuel rest hf
      have hs : funNames.contains s = false := by
        simpa [goodE, Bool.not_eq_true'] using hg
      match fuel, hf with
      | fuel + 1, _ =>
        simp only [toTokens, List.cons_append, List.nil_append]
        simp only [parseToks, hs]
        simp
  | add a b iha ihb =>
      intro fuel rest hf
      have hga : goodE a = true := by simp [goodE, Bool.and_eq_true] at hg; exact hg.1
      have hgb : goodE b = true := by simp [goodE, Bool.and_eq_true] at hg; exact hg.2
      match fuel, hf with
      | fuel + 1, hf =>
        have ha : esize a ≤ fuel := by simp [esize] at hf; omega
        have hb : esize b ≤ fuel := by simp [esize] at hf; omega
        have hsplit : toTokens (Expr.add a b) ++ rest =
            Tok.lpar :: (toTokens a ++ (Tok.plus :: (toTokens b ++ (Tok.rpar :: rest)))) := by
          simp [toTokens, List.append_assoc]
        rw [hsplit]
        simp [parseToks, iha hga fuel (Tok.plus :: (toTokens b ++ (Tok.rpar :: rest))) ha,
          ihb hgb fuel (Tok.rpar :: rest) hb, binOfTok]
  | sub a b iha ihb =>
      intro fuel rest hf
      have hga : goodE a = true := by simp [goodE, Bool.and_eq_true] at hg; exact hg.1
      have hgb : goodE b = true := by simp [goodE, Bool.and_eq_true] at hg; exact hg.2
      match fuel, hf with
      | fuel + 1, hf =>
        have ha : esize a ≤ fuel := by simp [esize] at hf; omega
        have hb : esize b ≤ fuel := by simp [esize] at hf; omega
        have hsplit : toTokens (Expr.sub a b) ++ rest =
            Tok.lpar :: (toTokens a ++ (Tok.minus :: (toTokens b ++ (Tok.rpar :: rest)))) := by
          simp [toTokens, List.append_assoc]
        rw [hsplit]
        simp [parseToks, iha hga fuel (Tok.minus :: (toTokens b ++ (Tok.rpar :: rest))) ha,
          ihb hgb fuel (Tok.rpar :: rest) hb, binOfTok]
  | mul a b iha ihb =>
      intro fuel rest hf
      have hga : goodE a = true := by simp [goodE, Bool.and_eq_true] at hg; exact hg.1
      have hgb : goodE b = true := by simp [goodE, Bool.and_eq_true] at hg; exact hg.2
      match fuel, hf with
      | fuel + 1, hf =>
        have ha : esize a ≤ fuel := by simp [esize] at hf; omega
        have hb : esize b ≤ fuel := by simp [esize] at hf; omega
        have hsplit : toTokens (Expr.mul a b) ++ rest =
            Tok.lpar :: (toTokens a ++ (Tok.star :: (toTokens b ++ (Tok.rpar :: rest)))) := by
          simp [toTokens, List.append_assoc]
        rw [hsplit]
        simp [parseToks, iha hga fuel (Tok.star :: (toTokens b ++ (Tok.rpar :: rest))) ha,
          ihb hgb fuel (Tok.rpar :: rest) hb, binOfTok]
  | div a b iha ihb =>
      intro fuel rest hf
      have hga : goodE a = true := by simp [goodE, Bool.and_eq_true] at hg; exact hg.1
      have hgb : goodE b = true := by simp [goodE, Bool.and_eq_true] at hg; exact hg.2
      match fuel, hf with
      | fuel + 1, hf =>
        have ha : esize a ≤ fuel := by simp [esize] at hf; omega
        have hb : esize b ≤ fuel := by simp [esize] at hf; omega
        have hsplit : toTokens (Expr.div a b) ++ rest =
            Tok.lpar :: (toTokens a ++ (Tok.slash :: (toTokens b ++ (Tok.rpar :: rest)))) := by
          simp [toTokens, List.append_assoc]
        rw [hsplit]
        simp [parseToks, iha hga fuel (Tok.slash :: (toTokens b ++ (Tok.rpar :: rest))) ha,
          ihb hgb fuel (Tok.rpar :: rest) hb, binOfTok]
  | pow a b iha ihb =>
      intro fuel rest hf
      have hga : goodE a = true := by simp [goodE, Bool.and_eq_true] at hg; exact hg.1
      have hgb : goodE b = true := by simp [goodE, Bool.and_eq_true] at hg; exact hg.2
      match fuel, hf with
      | fuel + 1, hf =>
        have ha : esize a ≤ fuel := by simp [esize] at hf; omega
        have hb : esize b ≤ fuel := by simp [esize] at hf; omega
        have hsplit : toTokens (Expr.pow a b) ++ rest =
            Tok.lpar :: (toTokens a ++ (Tok.dstar :: (toTokens b ++ (Tok.rpar :: rest)))) := by
          simp [toTokens, List.append_assoc]
        rw [hsplit]
        simp [parseToks, iha hga fuel (Tok.dstar :: (toTokens b ++ (Tok.rpar :: rest))) ha,
          ihb hgb fuel (Tok.rpar :: rest) hb, binOfTok]
  | sin a iha =>
      intro fuel rest hf
      have hga : goodE a = true := by simpa [goodE] using hg
      match fuel, hf with
      | fuel + 1, hf =>
        have ha : esize a ≤ fuel := by simp [esize] at hf; omega
        have hfn : funNames.contains "sin" = true := rfl
        have hsplit : toTokens (Expr.sin a) ++ rest =
            Tok.nameT "sin" :: Tok.lpar :: (toTokens a ++ (Tok.rpar :: rest)) := by
          simp [toTokens, List.append_assoc]
        rw [hsplit]
        simp [parseToks, hfn, funNames, iha hga fuel (Tok.rpar :: rest) ha, mkUnary]
  | cos a iha =>
      intro fuel rest hf
      have hga : goodE a = true := by simpa [goodE] using hg
      match fuel, hf with
      | fuel + 1, hf =>
        have ha : esize a ≤ fuel := by simp [esize] at hf; omega
        have hfn : funNames.contains "cos" = true := rfl
        have hsplit : toTokens (Expr.cos a) ++ rest =
            Tok.nameT "cos" :: Tok.lpar :: (toTokens a ++ (Tok.rpar :: rest)) := by
          simp [toTokens, List.append_assoc]
        rw [hsplit]
        simp [parseToks, hfn, funNames, iha hga fuel (Tok.rpar :: rest) ha, mkUnary]
  | tan a iha =>
      intro fuel rest hf
      have hga : goodE a = true := by simpa [goodE] using hg
      match fuel, hf with
      | fuel + 1, hf =>
        have ha : esize a ≤ fuel := by simp [esize] at hf; omega
        have hfn : funNames.contains "tan" = true := rfl
        have hsplit : toTokens (Expr.tan a) ++ rest =
            Tok.nameT "tan" :: Tok.lpar :: (toTokens a ++ (Tok.rpar :: rest)) := by
          simp [toTokens, List.append_assoc]
        rw [hsplit]
        simp [parseToks, hfn, funNames, iha hga fuel (Tok.rpar :: rest) ha, mkUnary]
  | exp a iha =>
      intro fuel rest hf
      have hga : goodE a = true := by simpa [goodE] using hg
      match fuel, hf with
      | fuel + 1, hf =>
        have ha : esize a ≤ fuel := by simp [esize] at hf; omega
        have hfn : funNames.contains "exp" = true := rfl
        have hsplit : toTokens (Expr.exp a) ++ rest =
            Tok.nameT "exp" :: Tok.lpar :: (toTokens a ++ (Tok.rpar :: rest)) := by
          simp [toTokens, List.append_assoc]
        rw [hsplit]
        simp [parseToks, hfn, funNames, iha hga fuel (Tok.rpar :: rest) ha, mkUnary]
  | log a iha =>
      intro fuel rest hf
      have hga : goodE a = true := by simpa [goodE] using hg
      match fuel, hf with
      | fuel + 1, hf =>
        have ha : esize a ≤ fuel := by simp [esize] at hf; omega
        have hfn : funNames.contains "log" = true := rfl
        have hsplit : toTokens (Expr.log a) ++ rest =
            Tok.nameT "log" :: Tok.lpar :: (toTokens a ++ (Tok.rpar :: rest)) := by
          simp [toTokens, List.append_assoc]
        rw [hsplit]
        simp [parseToks, hfn, funNames, iha hga fuel (Tok.rpar :: rest) ha, mkUnary]
  | abs a iha =>
      intro fuel rest hf
      have hga : goodE a = true := by simpa [goodE] using hg
      match fuel, hf with
      | fuel + 1, hf =>
        have ha : esize a ≤ fuel := by simp [esize] at hf; omega
        have hfn : funNames.contains "Abs" = true := rfl
        have hsplit : toTokens (Expr.abs a) ++ rest =
            Tok.nameT "Abs" :: Tok.lpar :: (toTokens a ++ (Tok.rpar :: rest)) := by
          simp [toTokens, List.append_assoc]
        rw [hsplit]
        simp [parseToks, hfn, funNames, iha hga fuel (Tok.rpar :: rest) ha, mkUnary]

theorem parseTxt_toTokens (e : Expr) (hg : goodE e = true) :
    parseTxt (toTokens e) = some e := by
  unfold parseTxt
  have h := parseToks_toTokens e hg ((toTokens e).length + 1) []
    (le_trans (esize_le_len e) (Nat.le_succ _))
  rw [List.append_nil] at h
  rw [h]

theorem reconstruct_eq (c : Category) (e : Expr) (hg : goodE e = true) :
    reconstruct c e = .ok ⟨c, e⟩ := by
  unfold reconstruct mkFn
  rw [caretNorm_toTokens, parseTxt_toTokens e hg]

theorem goodE_diffE (v : String) (e : Expr) (hg : goodE e = true) :
    goodE (diffE v e) = true := by
  induction e with
  | num q => simp [diffE, goodE]
  | sym s => simp only [diffE]; split <;> simp [goodE]
  | add a b iha ihb =>
      simp [goodE, Bool.and_eq_true] at hg
      simp [diffE, goodE, iha hg.1, ihb hg.2, hg.1, hg.2]
  | sub a b iha ihb =>
      simp [goodE, Bool.and_eq_true] at hg
      simp [diffE, goodE, iha hg.1, ihb hg.2, hg.1, hg.2]
  | mul a b iha ihb =>
      simp [goodE, Bool.and_eq_true] at hg
      simp [diffE, goodE, iha hg.1, ihb hg.2, hg.1, hg.2]
  | div a b iha ihb =>
      simp [goodE, Bool.and_eq_true] at hg
      simp [diffE, goodE, iha hg.1, ihb hg.2, hg.1, hg.2]
  | pow a b iha ihb =>
      simp [goodE, Bool.and_eq_true] at hg
      simp [diffE, goodE, iha hg.1, ihb hg.2, hg.1, hg.2]
  | sin a iha =>
      simp [goodE] at hg
      simp [diffE, goodE, iha hg, hg]
  | cos a iha =>
      simp [goodE] at hg
      simp [diffE, goodE, iha hg, hg]
  | tan a iha =>
      simp [goodE] at hg
      simp [diffE, goodE, iha hg, hg]
  | exp a iha =>
      simp [goodE] at hg
      simp [diffE, goodE, iha hg, hg]
  | log a iha =>
      simp [goodE] at hg
      simp [diffE, goodE, iha hg, hg]
  | abs a iha =>
      simp [goodE] at hg
      simp [diffE, goodE, iha hg, hg]

theorem goodE_integE (v : String) (e : Expr) (hg : goodE e = true)
    (hv : funNames.contains v = false) : goodE (integE v e) = true := by
  have hv2 : v ∉ funNames := by simpa using hv
  induction e with
  | num q => simp [integE, goodE, hv, hv2]
  | sym s =>
      simp [goodE] at hg
      simp only [integE]
      split <;> simp [goodE, hv, hv2, hg]
  | add a b iha ihb =>
      simp [goodE, Bool.and_eq_true] at hg
      simp [integE, goodE, iha hg.1, ihb hg.2]
  | sub a b iha ihb =>
      simp [goodE, Bool.and_eq_true] at hg
      simp [integE, goodE, iha hg.1, ihb hg.2]
  | mul a b _ _ =>
      simp [goodE, Bool.and_eq_true] at hg
      simp [integE, goodE, hv, hv2, hg.1, hg.2]
  | div a b _ _ =>
      simp [goodE, Bool.and_eq_true] at hg
      simp [integE, goodE, hv, hv2, hg.1, hg.2]
  | pow a b _ _ =>
      simp [goodE, Bool.and_eq_true] at hg
      simp [integE, goodE, hv, hv2, hg.1, hg.2]
  | sin a _ =>
      simp [goodE] at hg
      simp [integE, goodE, hv, hv2, hg]
  | cos a _ =>
      simp [goodE] at hg
      simp [integE, goodE, hv, hv2, hg]
  | tan a _ =>
      simp [goodE] at hg
      simp [integE, goodE, hv, hv2, hg]
  | exp a _ =>
      simp [goodE] at hg
      simp [integE, goodE, hv, hv2, hg]
  | log a _ =>
      simp [goodE] at hg
      simp [integE, goodE, hv, hv2, hg]
  | abs a _ =>
      simp [goodE] at hg
      simp [integE, goodE, hv, hv2, hg]

theorem substE_not_mem (x : String) (q : ℚ) (vals : List (String × ℚ)) (e : Expr)
    (hx : x ∉ symsList e) : substE ((x, q) :: vals) e = substE vals e := by
  induction e with
  | num r => simp [substE]
  | sym s =>
      have hne : (s == x) = false := by
        simp [symsList] at hx
        simp [beq_eq_false_iff_ne]
        exact fun h => hx h.symm
      simp [substE, List.lookup, hne]
  | add a b iha ihb =>
      simp [symsList, List.mem_append] at hx
      simp [substE, iha hx.1, ihb hx.2]
  | sub a b iha ihb =>
      simp [symsList, List.mem_append] at hx
      simp [substE, iha hx.1, ihb hx.2]
  | mul a b iha ihb =>
      simp [symsList, List.mem_append] at hx
      simp [substE, iha hx.1, ihb hx.2]
  | div a b iha ihb =>
      simp [symsList, List.mem_append] at hx
      simp [substE, iha hx.1, ihb hx.2]
  | pow a b iha ihb =>
      simp [symsList, List.mem_append] at hx
      simp [substE, iha hx.1, ihb hx.2]
  | sin a iha =>
      simp [symsList] at hx
      simp [substE, iha hx]
  | cos a iha =>
      simp [symsList] at hx
      simp [substE, iha hx]
  | tan a iha =>
      simp [symsList] at hx
      simp [substE, iha hx]
  | exp a iha =>
      simp [symsList] at hx
      simp [substE, iha hx]
  | log a iha =>
      simp [symsList] at hx
      simp [substE, iha hx]
  | abs a iha =>
      simp [symsList] at hx
      simp [substE, iha hx]

theorem sampleXs_length (low high : ℚ) (n : Nat) : (sampleXs low high n).length = n := by
  unfold sampleXs
  rw [List.length_map, List.length_range]

theorem sampleXs_pairwise (low high : ℚ) (n : Nat) (h : low ≤ high) :
    (sampleXs low high n).Pairwise (fun x y => x ≤ y) := by
  unfold sampleXs
  have hmono : ∀ i j : Nat, i < j →
      low + (high - low) * (i : ℚ) / ((n - 1 : Nat) : ℚ) ≤
        low + (high - low) * (j : ℚ) / ((n - 1 : Nat) : ℚ) := by
    intro i j hij
    have hnum : (high - low) * (i : ℚ) ≤ (high - low) * (j : ℚ) := by
      have : (i : ℚ) ≤ (j : ℚ) := by exact_mod_cast Nat.le_of_lt hij
      exact mul_le_mul_of_nonneg_left this (by linarith)
    rcases eq_or_lt_of_le (show (0 : ℚ) ≤ ((n - 1 : Nat) : ℚ) from by positivity) with hz | hz
    · rw [← hz]
      simp
    · exact add_le_add_left ((div_le_div_iff_of_pos_right hz).mpr hnum) low
  refine List.pairwise_map.mpr ?_
  exact (List.pairwise_lt_range n).imp (fun hij => hmono _ _ hij)

/- Claim theorems -/

/-- C1, counterexample: the claim says `Absolute("Abs(x - 1)").range("x")`
returns `[0, +oo)` directly, without calling the engine's range solver.  In
the source the call returns no interval at all: with no explicit domain the
defaulting branch hands the already-resolved Symbol to `Function.domain`,
whose `symbols()` call raises `TypeError` — so the call fails, whatever the
solver answers. -/
theorem absolute_range_no_shortcut_cex :
    Fn.range junkSolver absEx (some "x") none = .error .typeError ∧
    rngOk (Fn.range junkSolver absEx (some "x") none) = false := ⟨rfl, rfl⟩

/-- C1, amended: `AbsoluteFunction.range` has no absolute-value special case:
for every solver it delegates to the generic range computation.  With an
explicit domain the result is exactly what the engine's range solver returns
on the expression, the resolved variable and that domain; with no explicit
domain the defaulting branch passes the already-resolved Symbol to
`Function.domain`, whose `symbols()` call raises `TypeError`, so
`Absolute("Abs(x - 1)").range("x")` raises instead of returning any
interval. -/
theorem absolute_range_delegates (S : RangeSolver) (f : Fn) (hcat : f.cat = .absolute)
    (v : String) (dom : Option RSet) :
    Fn.range S f (some v) dom = genericRange S f (some v) dom ∧
    (∀ d, dom = some d → Fn.range S f (some v) dom = .ok (S.functionRange f.expr v d)) ∧
    (dom = none → Fn.range S f (some v) dom = .error .typeError) := by
  refine ⟨by simp [Fn.range, hcat], ?_, ?_⟩
  · intro d hd
    subst hd
    simp [Fn.range, hcat, genericRange]
  · intro hd
    subst hd
    simp [Fn.range, hcat, genericRange, Fn.domainOnSymbol]

/-- C1, witness: with the stand-in solver, whose range answer on an
absolute-value application is `[0, +oo)`, `Absolute("Abs(x - 1)").range("x",
Reals)` returns `[0, +oo)` — the value comes from the solver, via delegation
— while the same call with no explicit domain raises `TypeError`. -/
theorem absolute_range_delegates_witness :
    Fn.range refSolver absEx (some "x") (some RSet.reals) = .ok (RSet.Ici 0) ∧
    Fn.range refSolver absEx (some "x") none = .error .typeError := by
  have h := absolute_range_delegates refSolver absEx rfl "x" (some RSet.reals)
  have h0 := absolute_range_delegates refSolver absEx rfl "x" none
  exact ⟨(h.2.1 RSet.reals rfl).trans (by decide), h0.2.2 rfl⟩

/-- C2, counterexample: the claim covers all five operators on every pair of
Function values, but `power` applied to a pair of Functions produces no
Function at all — the raw right operand is rejected by the engine's strict
conversion and the call raises `TypeError`, so no result carries the left
operand's category. -/
theorem pow_pair_no_result_cex :
    Fn.powFn polyX2 (.pyFn ratInvX) = .error .typeError ∧
    exOk (Fn.powFn polyX2 (.pyFn ratInvX)) = false := ⟨rfl, rfl⟩

/-- C2, amended: for `add`, `subtract`, `multiply` and `divide` on any two
Functions (and for `power` with an engine-convertible numeric right operand)
the result is a Function whose concrete category equals the left operand's
category, the right operand's category being discarded; `power` with a
Function right operand instead fails with `TypeError`. -/
theorem binop_category_left (f g : Fn) (hf : goodE f.expr = true) (hg : goodE g.expr = true)
    (q : ℚ) :
    Fn.addFn f g = .ok ⟨f.cat, .add f.expr g.expr⟩ ∧
    Fn.subFn f g = .ok ⟨f.cat, .sub f.expr g.expr⟩ ∧
    Fn.mulFn f g = .ok ⟨f.cat, .mul f.expr g.expr⟩ ∧
    Fn.divFn f g = .ok ⟨f.cat, .div f.expr g.expr⟩ ∧
    Fn.powFn f (.pyNum q) = .ok ⟨f.cat, .pow f.expr (.num q)⟩ ∧
    Fn.powFn f (.pyFn g) = .error .typeError := by
  refine ⟨?_, ?_, ?_, ?_, ?_, rfl⟩
  · exact reconstruct_eq f.cat _ (by simp [goodE, hf, hg])
  · exact reconstruct_eq f.cat _ (by simp [goodE, hf, hg])
  · exact reconstruct_eq f.cat _ (by simp [goodE, hf, hg])
  · exact reconstruct_eq f.cat _ (by simp [goodE, hf, hg])
  · exact reconstruct_eq f.cat _ (by simp [goodE, hf])

/-- C2, witness: `Polynomial("x^2") + Rational("1/x")` is a
Polynomial-category instance, and `Polynomial("x^2") ** Rational("1/x")`
raises `TypeError`. -/
theorem binop_category_left_witness :
    Fn.addFn polyX2 ratInvX =
      .ok ⟨Category.polynomial, .add (.pow (.sym "x") (.num 2)) (.div (.num 1) (.sym "x"))⟩ ∧
    Fn.powFn polyX2 (.pyFn ratInvX) = .error .typeError := by
  have h := binop_category_left polyX2 ratInvX (by decide) (by decide) 2
  exact ⟨h.1, h.2.2.2.2.2⟩

/-- C3, counterexample: the claim says `power` combines the two Functions'
underlying expressions; in fact `__pow__` passes the raw right operand to the
engine, whose strict conversion rejects a Function object, so the call
raises `TypeError` instead of producing any combined expression. -/
theorem pow_function_operand_cex :
    Fn.powFn trigEx (.pyFn fX2p1) = .error .typeError ∧
    exOk (Fn.powFn trigEx (.pyFn fX2p1)) = false := ⟨rfl, rfl⟩

/-- C3, amended: `add`, `subtract`, `multiply` and `divide` combine the two
operands' underlying expressions with the corresponding algebraic operator;
`power` raises the receiver's expression to the raw right operand, which
succeeds (with the combined expression) only for an engine-convertible
numeric operand and raises `TypeError` for a Function operand. -/
theorem binop_combines_exprs (f g : Fn) (hf : goodE f.expr = true) (hg : goodE g.expr = true)
    (q : ℚ) :
    (Fn.addFn f g).map Fn.expr = .ok (.add f.expr g.expr) ∧
    (Fn.subFn f g).map Fn.expr = .ok (.sub f.expr g.expr) ∧
    (Fn.mulFn f g).map Fn.expr = .ok (.mul f.expr g.expr) ∧
    (Fn.divFn f g).map Fn.expr = .ok (.div f.expr g.expr) ∧
    (Fn.powFn f (.pyNum q)).map Fn.expr = .ok (.pow f.expr (.num q)) ∧
    Fn.powFn f (.pyFn g) = .error .typeError := by
  refine ⟨?_, ?_, ?_, ?_, ?_, rfl⟩
  · show (reconstruct f.cat (.add f.expr g.expr)).map Fn.expr = .ok (.add f.expr g.expr)
    rw [reconstruct_eq f.cat _ (by simp [goodE, hf, hg])]
    rfl
  · show (reconstruct f.cat (.sub f.expr g.expr)).map Fn.expr = .ok (.sub f.expr g.expr)
    rw [reconstruct_eq f.cat _ (by simp [goodE, hf, hg])]
    rfl
  · show (reconstruct f.cat (.mul f.expr g.expr)).map Fn.expr = .ok (.mul f.expr g.expr)
    rw [reconstruct_eq f.cat _ (by simp [goodE, hf, hg])]
    rfl
  · show (reconstruct f.cat (.div f.expr g.expr)).map Fn.expr = .ok (.div f.expr g.expr)
    rw [reconstruct_eq f.cat _ (by simp [goodE, hf, hg])]
    rfl
  · show (reconstruct f.cat (.pow f.expr (.num q))).map Fn.expr = .ok (.pow f.expr (.num q))
    rw [reconstruct_eq f.cat _ (by simp [goodE, hf])]
    rfl

/-- C3, witness: multiplying `x^2 + 1` by `sin(x)` combines the two wrapped
expressions, and raising `x^2 + 1` to the numeric power `3` combines the
receiver's expression with the numeral. -/
theorem binop_combines_exprs_witness :
    (Fn.mulFn fX2p1 trigEx).map Fn.expr =
      .ok (.mul (.add (.pow (.sym "x") (.num 2)) (.num 1)) (.sin (.sym "x"))) ∧
    (Fn.powFn fX2p1 (.pyNum 3)).map Fn.expr =
      .ok (.pow (.add (.pow (.sym "x") (.num 2)) (.num 1)) (.num 3)) := by
  have h := binop_combines_exprs fX2p1 trigEx (by decide) (by decide) 3
  exact ⟨h.2.2.1, h.2.2.2.2.1⟩

/-- C4: with a resolvable variable (explicit, or defaulted from a single free
variable), `derivative` and `integral` return a new Function of the same
concrete category as the receiver, equal to constructing that category from
the rendered text of the adapter's result — and the text round trip is
lossless, so the new Function wraps exactly the differentiated/integrated
expression. -/
theorem calculus_same_category_roundtrip (f : Fn) (v : String)
    (hf : goodE f.expr = true) (hv : funNames.contains v = false) :
    (Fn.derivative f (some v) = mkFn f.cat (toTokens (diffE v f.expr)) ∧
     Fn.derivative f (some v) = .ok ⟨f.cat, diffE v f.expr⟩ ∧
     Fn.integral f (some v) = mkFn f.cat (toTokens (integE v f.expr)) ∧
     Fn.integral f (some v) = .ok ⟨f.cat, integE v f.expr⟩) ∧
    (Fn.vars f = [v] →
     Fn.derivative f none = .ok ⟨f.cat, diffE v f.expr⟩ ∧
     Fn.integral f none = .ok ⟨f.cat, integE v f.expr⟩) := by
  have hd := reconstruct_eq f.cat (diffE v f.expr) (goodE_diffE v f.expr hf)
  have hi := reconstruct_eq f.cat (integE v f.expr) (goodE_integE v f.expr hf hv)
  refine ⟨⟨rfl, hd, rfl, hi⟩, ?_⟩
  intro hvars
  constructor
  · simp only [Fn.derivative, hvars]
    exact hd
  · simp only [Fn.integral, hvars]
    exact hi

/-- C4, witness: for `Function("x^2 + 1")` the derivative with explicit
variable and the integral with the defaulted variable are Functions of the
receiver's (generic) category wrapping exactly the adapter's results. -/
theorem calculus_same_category_roundtrip_witness :
    Fn.derivative fX2p1 (some "x") = .ok ⟨Category.generic, diffE "x" fX2p1.expr⟩ ∧
    Fn.integral fX2p1 none = .ok ⟨Category.generic, integE "x" fX2p1.expr⟩ := by
  have h := calculus_same_category_roundtrip fX2p1 "x" (by decide) (by decide)
  exact ⟨h.1.2.1, (h.2 rfl).2⟩

/-- C5: whenever the number of free variables is not exactly one, `domain`,
`range`, `derivative` and `integral` without an explicit variable all fail
with the ambiguous-variable error, in every category; with exactly one free
variable, the defaulted call coincides with the call naming that variable. -/
theorem single_variable_rule (S : RangeSolver) (f : Fn) :
    ((Fn.vars f).length ≠ 1 →
      Fn.domain S f none = .error .ambiguousVariable ∧
      Fn.range S f none none = .error .ambiguousVariable ∧
      Fn.derivative f none = .error .ambiguousVariable ∧
      Fn.integral f none = .error .ambiguousVariable) ∧
    (∀ v, Fn.vars f = [v] →
      Fn.domain S f none = Fn.domain S f (some v) ∧
      Fn.range S f none none = Fn.range S f (some v) none ∧
      Fn.derivative f none = Fn.derivative f (some v) ∧
      Fn.integral f none = Fn.integral f (some v)) := by
  constructor
  · intro h
    rcases hl : Fn.vars f with _ | ⟨a, _ | ⟨b, l⟩⟩
    · refine ⟨?_, ?_, ?_, ?_⟩
      · cases hc : f.cat <;> simp [Fn.domain, polyDomain, genericDomain, hc, hl]
      · cases hc : f.cat <;> simp [Fn.range, polyRange, genericRange, hc, hl]
      · simp [Fn.derivative, hl]
      · simp [Fn.integral, hl]
    · exact absurd (by rw [hl]; rfl) h
    · refine ⟨?_, ?_, ?_, ?_⟩
      · cases hc : f.cat <;> simp [Fn.domain, polyDomain, genericDomain, hc, hl]
      · cases hc : f.cat <;> simp [Fn.range, polyRange, genericRange, hc, hl]
      · simp [Fn.derivative, hl]
      · simp [Fn.integral, hl]
  · intro v hv
    refine ⟨?_, ?_, ?_, ?_⟩
    · cases hc : f.cat <;> simp [Fn.domain, polyDomain, genericDomain, hc, hv]
    · cases hc : f.cat <;> simp [Fn.range, polyRange, genericRange, Fn.domainOnSymbol, hc, hv]
    · simp [Fn.derivative, hv]
    · simp [Fn.integral, hv]

/-- C5, witness: the three-variable `Function("x - 2w + 3z")` fails with the
ambiguous-variable error on defaulted `domain` and `derivative`, while the
one-variable `Function("x^2 + 1")` defaults its `range` variable to `x`. -/
theorem single_variable_rule_witness :
    Fn.domain refSolver genY none = .error .ambiguousVariable ∧
    Fn.derivative genY none = .error .ambiguousVariable ∧
    Fn.range refSolver fX2p1 none none = Fn.range refSolver fX2p1 (some "x") none := by
  have h3 := single_variable_rule refSolver genY
  have h1 := single_variable_rule refSolver fX2p1
  have hg3 : Fn.vars genY = ["w", "x", "z"] := rfl
  have hlen : (Fn.vars genY).length ≠ 1 := by rw [hg3]; decide
  exact ⟨(h3.1 hlen).1, (h3.1 hlen).2.2.1, (h1.2 "x" rfl).2.1⟩

/-- C6: `horizontalAsymptote` reports the not-rational message exactly when
the numerator's or denominator's polynomial conversion fails, and otherwise
classifies by degree comparison: smaller numerator degree gives `y = 0`,
equal degrees give the symbolic ratio of leading coefficients, larger
numerator degree gives the no-horizontal-asymptote report. -/
theorem horizontal_asymptote_classification (f : Fn) :
    ((asPoly (asNumerDenom f.expr).1 = none ∨ asPoly (asNumerDenom f.expr).2 = none) →
      Fn.horizontalAsymptote f = "Not a rational polynomial function.") ∧
    (∀ pn pd, asPoly (asNumerDenom f.expr).1 = some pn →
      asPoly (asNumerDenom f.expr).2 = some pd →
      (pdeg pn < pdeg pd → Fn.horizontalAsymptote f = "y = 0") ∧
      (pdeg pn = pdeg pd →
        Fn.horizontalAsymptote f = "y = " ++ ratStr (pLC pn) ++ "/" ++ ratStr (pLC pd)) ∧
      (pdeg pd < pdeg pn →
        Fn.horizontalAsymptote f = "No horizontal asymptote (slant or higher).")) := by
  constructor
  · intro h
    rcases hn : asPoly (asNumerDenom f.expr).1 with _ | pn
    · simp [Fn.horizontalAsymptote, hn]
    · rcases hd : asPoly (asNumerDenom f.expr).2 with _ | pd
      · simp [Fn.horizontalAsymptote, hn, hd]
      · rcases h with h | h
        · rw [hn] at h
          exact Option.noConfusion h
        · rw [hd] at h
          exact Option.noConfusion h
  · intro pn pd hn hd
    refine ⟨?_, ?_, ?_⟩
    · intro hlt
      simp [Fn.horizontalAsymptote, hn, hd, hlt]
    · intro heq
      have h1 : ¬ pdeg pn < pdeg pd := by omega
      simp [Fn.horizontalAsymptote, hn, hd, h1, heq]
    · intro hgt
      have h1 : ¬ pdeg pn < pdeg pd := by omega
      have h2 : ¬ pdeg pn = pdeg pd := by omega
      simp [Fn.horizontalAsymptote, hn, hd, h1, h2]

/-- C6, witness: `Rational("(2x+1)/(x+3)")` has numerator and denominator of
equal degree one with leading coefficients 2 and 1, and reports `y = 2/1`. -/
theorem horizontal_asymptote_classification_witness :
    Fn.horizontalAsymptote ratEq = "y = 2/1" := by
  have hn : asPoly (asNumerDenom ratEq.expr).1 = some [1, 2] := by
    norm_num [ratEq, asNumerDenom, asPoly, liftP, polyMul, polyAdd, polyScale]
  have hd : asPoly (asNumerDenom ratEq.expr).2 = some [3, 1] := by
    norm_num [ratEq, asNumerDenom, asPoly, liftP, polyMul, polyAdd, polyScale]
  have h := ((horizontal_asymptote_classification ratEq).2 [1, 2] [3, 1] hn hd).2.1 (by decide)
  exact h.trans (by decide)

/-- Companion example from the spec: `(x^2+1)/(x-2)` (numerator degree 2 over
denominator degree 1) has no horizontal asymptote. -/
theorem horizontal_asymptote_example_high :
    Fn.horizontalAsymptote ratHi = "No horizontal asymptote (slant or higher)." := by
  have hn : asPoly (asNumerDenom ratHi.expr).1 = some [1, 0, 1] := by
    norm_num [ratHi, asNumerDenom, asPoly, liftP, powPoly, polyPow, polyMul, polyAdd, polyScale]
  have hd : asPoly (asNumerDenom ratHi.expr).2 = some [-2, 1] := by
    norm_num [ratHi, asNumerDenom, asPoly, liftP, polyMul, polyAdd, polyScale]
  rw [show Fn.horizontalAsymptote ratHi =
    (match asPoly (asNumerDenom ratHi.expr).1, asPoly (asNumerDenom ratHi.expr).2 with
     | some pn, some pd =>
         if pdeg pn < pdeg pd then "y = 0"
         else if pdeg pn = pdeg pd then "y = " ++ ratStr (pLC pn) ++ "/" ++ ratStr (pLC pd)
         else "No horizontal asymptote (slant or higher)."
     | _, _ => "Not a rational polynomial function.") from rfl, hn, hd]
  decide

/-- Companion example from the spec: `(x+1)/(x^2+1)` (numerator degree 1 over
denominator degree 2) reports `y = 0`. -/
theorem horizontal_asymptote_example_low :
    Fn.horizontalAsymptote ratLo = "y = 0" := by
  have hn : asPoly (asNumerDenom ratLo.expr).1 = some [1, 1] := by
    norm_num [ratLo, asNumerDenom, asPoly, liftP, polyMul, polyAdd, polyScale]
  have hd : asPoly (asNumerDenom ratLo.expr).2 = some [1, 0, 1] := by
    norm_num [ratLo, asNumerDenom, asPoly, liftP, powPoly, polyPow, polyMul, polyAdd, polyScale]
  rw [show Fn.horizontalAsymptote ratLo =
    (match asPoly (asNumerDenom ratLo.expr).1, asPoly (asNumerDenom ratLo.expr).2 with
     | some pn, some pd =>
         if pdeg pn < pdeg pd then "y = 0"
         else if pdeg pn = pdeg pd then "y = " ++ ratStr (pLC pn) ++ "/" ++ ratStr (pLC pd)
         else "No horizontal asymptote (slant or higher)."
     | _, _ => "Not a rational polynomial function.") from rfl, hn, hd]
  decide

/-- C7, counterexample: the claim says `numerator()` and `denominator()`
return Function instances; on `Rational("(x^2+1)/(x-2)")` they return the
bare engine expressions `x^2 + 1` and `x - 2`, not Function objects. -/
theorem numerator_not_function_cex :
    Fn.numerator ratHi = .exprObj (.add (.pow (.sym "x") (.num 2)) (.num 1)) ∧
    isFnObj (Fn.numerator ratHi) = false ∧
    Fn.denominator ratHi = .exprObj (.sub (.sym "x") (.num 2)) ∧
    isFnObj (Fn.denominator ratHi) = false := ⟨rfl, rfl, rfl, rfl⟩

/-- C7, amended: `numerator()` and `denominator()` return the two parts of
`as_numer_denom` as bare engine expression handles, never wrapped as
Function instances. -/
theorem numerator_denominator_bare_expr (f : Fn) :
    Fn.numerator f = .exprObj (asNumerDenom f.expr).1 ∧
    Fn.denominator f = .exprObj (asNumerDenom f.expr).2 ∧
    isFnObj (Fn.numerator f) = false ∧
    isFnObj (Fn.denominator f) = false := ⟨rfl, rfl, rfl, rfl⟩

/-- C8 (modelled from the spec, `sample` being absent from `src/t.py`):
`sample` with a resolved variable always succeeds with the pointwise-safe
list — `n` pairs, in nondecreasing abscissa order when the interval is
ordered, each second component the evaluation result with per-point failure
recorded as the undefined sentinel (`none`) rather than raised; the variable
is resolved by the single-variable rule. -/
theorem sample_pointwise_safe (f : Fn) (v : String) (low high : ℚ) (n : Nat) :
    Fn.sample f (some v) low high n =
      .ok ((sampleXs low high n).map (fun x => (x, evalAt f.expr v x))) ∧
    ((sampleXs low high n).map (fun x => (x, evalAt f.expr v x))).length = n ∧
    (low ≤ high →
      ((sampleXs low high n).map (fun x => (x, evalAt f.expr v x))).Pairwise
        (fun p q => p.1 ≤ q.1)) ∧
    (∀ p ∈ (sampleXs low high n).map (fun x => (x, evalAt f.expr v x)),
      p.2 = evalAt f.expr v p.1) ∧
    (Fn.vars f = [v] → Fn.sample f none low high n = Fn.sample f (some v) low high n) ∧
    ((Fn.vars f).length ≠ 1 → Fn.sample f none low high n = .error .ambiguousVariable) := by
  refine ⟨rfl, ?_, ?_, ?_, ?_, ?_⟩
  · rw [List.length_map, sampleXs_length]
  · intro hle
    exact List.pairwise_map.mpr ((sampleXs_pairwise low high n hle).imp (fun h => h))
  · intro p hp
    rcases List.mem_map.mp hp with ⟨x, _, rfl⟩
    rfl
  · intro hv
    simp [Fn.sample, hv]
  · intro h
    rcases hl : Fn.vars f with _ | ⟨a, _ | ⟨b, l⟩⟩
    · simp [Fn.sample, hl]
    · exact absurd (by rw [hl]; rfl) h
    · simp [Fn.sample, hl]

/-- C8, witness: sampling `Rational("1/x")` over `[-1, 1]` with five points
crosses the pole at zero; the call returns normally, that one point carries
the undefined sentinel, and the four others are numeric; the one-variable
default resolves to `x`. -/
theorem sample_pointwise_safe_witness :
    Fn.sample ratInvX (some "x") (-1) 1 5 =
      .ok [(-1, some (-1)), (-1/2, some (-2)), (0, none), (1/2, some 2), (1, some 1)] ∧
    Fn.sample ratInvX none (-1) 1 5 = Fn.sample ratInvX (some "x") (-1) 1 5 := by
  have h := sample_pointwise_safe ratInvX "x" (-1) 1 5
  constructor
  · rw [h.1]
    norm_num [sampleXs, evalAt, substE, evalClosed, divO, List.lookup, List.range_succ, ratInvX]
  · exact h.2.2.2.2.1 rfl

/-- C9, counterexample: the claim says `evaluate` returns a number whenever
substitution resolves all free variables; on `Function("1/x")` with `x = 0`
the substitution is total (no free variables remain) yet the float coercion
fails, and the fully substituted symbolic expression is returned instead of
a number. -/
theorem evaluater_full_subst_not_number_cex :
    Fn.evaluater ratInvX [("x", 0)] = .residual (.div (.num 1) (.num 0)) ∧
    isNumber (Fn.evaluater ratInvX [("x", 0)]) = false ∧
    freeVars (substE [("x", 0)] ratInvX.expr) = [] := by
  refine ⟨by decide, by decide, by decide⟩

/-- C9, amended: `evaluate` returns a number when substitution resolves all
free variables and the resulting constant expression coerces to a float;
when the coercion fails the fully substituted symbolic value is returned;
when the bindings leave free variables the partially substituted residual is
returned rather than failing; and binding names that do not occur in the
expression are ignored. -/
theorem evaluater_partial_residual (f : Fn) (vals : List (String × ℚ)) :
    (∀ q, freeVars (substE vals f.expr) = [] → evalClosed (substE vals f.expr) = some q →
      Fn.evaluater f vals = .number q) ∧
    (freeVars (substE vals f.expr) ≠ [] →
      Fn.evaluater f vals = .residual (substE vals f.expr)) ∧
    (freeVars (substE vals f.expr) = [] → evalClosed (substE vals f.expr) = none →
      Fn.evaluater f vals = .residual (substE vals f.expr)) ∧
    (∀ x q, x ∉ symsList f.expr →
      Fn.evaluater f ((x, q) :: vals) = Fn.evaluater f vals) := by
  refine ⟨?_, ?_, ?_, ?_⟩
  · intro q h1 h2
    simp [Fn.evaluater, h1, h2]
  · intro h
    simp [Fn.evaluater, h]
  · intro h1 h2
    simp [Fn.evaluater, h1, h2]
  · intro x q hx
    unfold Fn.evaluater
    rw [substE_not_mem x q vals f.expr hx]

/-- C9, witness: `Function("x - 2w + 3z")` evaluated at `x=1, w=2, z=3`
gives the number 6; evaluated at `x=1` alone it returns the residual
`1 - 2w + 3z`; and a binding for the unused name `y` on `Function("x^2+1")`
is ignored. -/
theorem evaluater_partial_residual_witness :
    Fn.evaluater genY [("x", 1), ("w", 2), ("z", 3)] = .number 6 ∧
    Fn.evaluater genY [("x", 1)] =
      .residual (.add (.sub (.num 1) (.mul (.num 2) (.sym "w"))) (.mul (.num 3) (.sym "z"))) ∧
    Fn.evaluater fX2p1 [("y", 5), ("x", 1)] = Fn.evaluater fX2p1 [("x", 1)] := by
  have h := evaluater_partial_residual genY [("x", 1), ("w", 2), ("z", 3)]
  have h1 := evaluater_partial_residual genY [("x", 1)]
  have h2 := evaluater_partial_residual fX2p1 [("x", 1)]
  refine ⟨h.1 6 (by decide) ?_, ?_, h2.2.2.2 "y" 5 (by decide)⟩
  · norm_num [genY, substE, evalClosed, liftO, List.lookup]
  · exact (h1.2.1 (by decide)).trans (by decide)

/-- C10: construction performs no category-membership validation — the parsed
expression is the same whatever category tag is requested — and
`PolynomialFunction.domain` returns the set of all reals unconditionally
whenever a variable is resolvable (explicitly given, or defaulted from a
single free variable), never examining the wrapped expression. -/
theorem poly_domain_unconditional_reals (S : RangeSolver) (c : Category) (t : Txt) (f : Fn)
    (hf : mkFn .polynomial t = .ok f) :
    f.cat = .polynomial ∧
    (∀ v, Fn.domain S f (some v) = .ok .reals) ∧
    (∀ v, Fn.vars f = [v] → Fn.domain S f none = .ok .reals) ∧
    (mkFn c t).map Fn.expr = (mkFn .polynomial t).map Fn.expr := by
  have hcat : f.cat = .polynomial := by
    unfold mkFn at hf
    rcases hp : parseTxt (caretNorm t) with _ | e
    · rw [hp] at hf
      exact Except.noConfusion hf
    · rw [hp] at hf
      injection hf with h
      rw [← h]
  refine ⟨hcat, ?_, ?_, ?_⟩
  · intro v
    simp [Fn.domain, hcat, polyDomain]
  · intro v hv
    simp [Fn.domain, hcat, polyDomain, hv]
  · unfold mkFn
    rcases hp : parseTxt (caretNorm t) with _ | e <;> rfl

/-- C10, witness: `PolynomialFunction("1/x")` constructs successfully even
though `1/x` is not a polynomial, its `domain("x")` is all reals, and yet the
wrapped expression is undefined at the real point `0`. -/
theorem poly_domain_unconditional_reals_witness :
    Fn.domain refSolver ⟨Category.polynomial, .div (.num 1) (.sym "x")⟩ (some "x") =
      .ok .reals ∧
    mkFn Category.polynomial oneOverXTxt = .ok ⟨Category.polynomial, .div (.num 1) (.sym "x")⟩ ∧
    evalAt (.div (.num 1) (.sym "x")) "x" 0 = none := by
  have h := poly_domain_unconditional_reals refSolver Category.rational oneOverXTxt
    ⟨Category.polynomial, .div (.num 1) (.sym "x")⟩ (by decide)
  exact ⟨h.2.1 "x", by decide, by decide⟩
